/-
Verification of the sqlx SQL statement composer.

The Go sources are shallowly embedded: Go strings become `List Char`
(every byte the algorithms branch on is ASCII, where Go's byte-wise
`strings.IndexByte` / `strings.Split` coincide with character-wise
operations), Go panics become `Option.none`, and methods that mutate the
receiver are state-passing functions that return the updated receiver.
`strings.Split` / `strings.Join` are embedded as `List.splitOn` /
`List.intercalate`, which have the same semantics.

Parts of the repository that the claims depend on but whose source files
were not provided (the argument accumulator `ArgsBuilder`, the condition
and assignment expression trees, the `UpdateBuilder`, and the `intercept`
helper) are modelled from the specification; each such definition carries
a doc comment starting with `Modelled from the spec:`.
-/
import Mathlib

namespace sqlx

/-- Character list of a string literal, used to write Go string constants. -/
def str (s : String) : List Char := s.data

/-- Decimal rendering of a natural number, as Go's `fmt.Sprintf("%d", n)`. -/
def natStr (n : Nat) : List Char := Nat.toDigits 10 n

/-- Decimal rendering of an `int64`, as Go's `fmt.Sprintf("%d", i)`. -/
def intStr : Int → List Char
  | .ofNat n => natStr n
  | .negSucc n => '-' :: natStr (n + 1)

/-- Split a list at the first occurrence of `c`: Go's
`i := strings.IndexByte(s, c)` with `s[:i]` and `s[i+1:]`;
`none` when `IndexByte` returns `-1`. -/
def splitFirst (c : Char) : List Char → Option (List Char × List Char)
  | [] => none
  | a :: as =>
    if a = c then some ([], as)
    else (splitFirst c as).map (fun p => (a :: p.1, p.2))

theorem splitFirst_eq_none {c : Char} {s : List Char} :
    splitFirst c s = none ↔ c ∉ s := by
  induction s with
  | nil => simp [splitFirst]
  | cons a as ih =>
    by_cases h : a = c
    · subst h; simp [splitFirst]
    · simp [splitFirst, h, ih, Ne.symm h]

theorem splitFirst_eq_some {c : Char} {s pre rest : List Char}
    (h : splitFirst c s = some (pre, rest)) :
    s = pre ++ c :: rest ∧ c ∉ pre := by
  induction s generalizing pre rest with
  | nil => simp [splitFirst] at h
  | cons a as ih =>
    by_cases hac : a = c
    · subst hac
      simp [splitFirst] at h
      obtain ⟨h1, h2⟩ := h
      subst h1; subst h2; simp
    · rw [splitFirst, if_neg hac] at h
      match hsf : splitFirst c as with
      | none => rw [hsf] at h; simp at h
      | some (p, r) =>
        rw [hsf] at h
        simp only [Option.map_some', Option.some.injEq, Prod.mk.injEq] at h
        obtain ⟨h1, h2⟩ := h
        obtain ⟨hs, hat⟩ := ih hsf
        subst h1; subst h2
        refine ⟨by simp [hs], ?_⟩
        simp only [List.mem_cons, not_or]
        exact ⟨fun hc => hac hc.symm, hat⟩

/-- The three registered sql dialect names, embedding the package-private
`dialect` struct: only the values `MySQL`, `Sqlite3` and `Postgres` are
constructible outside the package, so the name field is one of the three
constants `pqDialect`, `mysqlDialect`, `sqlite3Dialect`. -/
inductive dialect where
  | pqDialect
  | mysqlDialect
  | sqlite3Dialect
deriving DecidableEq

/-- The dialect named "mysql". -/
def MySQL : dialect := .mysqlDialect

/-- The dialect named "sqlite3". -/
def Sqlite3 : dialect := .sqlite3Dialect

/-- The dialect named "postgres". -/
def Postgres : dialect := .pqDialect

/-- DefaultDialect is the default dialect (its initial value, `MySQL`). -/
def DefaultDialect : dialect := MySQL

/-- Placeholder returns the format of the ith argument: `$i` for postgres,
`?` for mysql and sqlite3.  `i` starts with 1. -/
def dialect.Placeholder (d : dialect) (i : Nat) : List Char :=
  match d with
  | .pqDialect => '$' :: natStr i
  | .mysqlDialect | .sqlite3Dialect => str "?"

/-- Whether the identifier already contains the dialect's quote character. -/
def dialect.isQuoted (d : dialect) (s : List Char) : Bool :=
  match d with
  | .pqDialect | .sqlite3Dialect => decide ('"' ∈ s)
  | .mysqlDialect => decide ('`' ∈ s)

/-- Wrap an identifier in the dialect's quote characters
(`"%s"` for postgres/sqlite3, backticks for mysql). -/
def dialect.quoteWrap (d : dialect) (s : List Char) : List Char :=
  match d with
  | .pqDialect | .sqlite3Dialect => '"' :: s ++ ['"']
  | .mysqlDialect => '`' :: s ++ ['`']

/-- Quote one dot-free segment (the unexported `dialect.quote`): `*` and
already-quoted segments pass through; a segment containing `(` has the text
between the first `(` and the first following `)` wrapped, unless a second
`(` follows the first or no `)` does, in which case it passes through. -/
def dialect.quote (d : dialect) (s : List Char) : List Char :=
  if s = str "*" ∨ d.isQuoted s = true then s
  else
    match splitFirst '(' s with
    | none => d.quoteWrap s
    | some (pre, rest) =>
      if '(' ∈ rest then s
      else
        match splitFirst ')' rest with
        | none => s
        | some (mid, post) => pre ++ '(' :: d.quoteWrap mid ++ ')' :: post

/-- Quote returns the quotation format of a sql identifier: identifiers
containing a space pass through; identifiers containing `.` are split on
`.`, each segment quoted, and rejoined; otherwise the segment quoter runs
on the whole identifier. -/
def dialect.Quote (d : dialect) (s : List Char) : List Char :=
  if ' ' ∈ s then s
  else if '.' ∈ s then
    List.intercalate (str ".") ((s.splitOn '.').map d.quote)
  else d.quote s

/-- LimitOffset returns the LIMIT/OFFSET clause; a negative limit panics
(`none`).  All three built-in dialects share one branch. -/
def dialect.LimitOffset (_d : dialect) (limit offset : Int) : Option (List Char) :=
  if limit < 0 then none
  else if offset = 0 then some (str "LIMIT " ++ intStr limit)
  else some (str "LIMIT " ++ intStr limit ++ str " OFFSET " ++ intStr offset)

/-- A value of the `Dialect` interface: an arbitrary implementation of the
four methods.  The registry stores such interface values by name. -/
structure DialectIface where
  Name : List Char
  Placeholder : Nat → List Char
  Quote : List Char → List Char
  LimitOffset : Int → Int → List Char

/-- The process-wide name-to-dialect registry `dialects`, as a lookup
function. -/
def Registry : Type := List Char → Option DialectIface

/-- The empty registry (before any registration). -/
def emptyRegistry : Registry := fun _ => none

/-- RegisterDialect registers the dialect under its name: if the name is
absent it is inserted; if present and `force` is false it panics (`none`);
if present and `force` is true nothing happens. -/
def RegisterDialect (ds : Registry) (d : DialectIface) (force : Bool) :
    Option Registry :=
  match ds d.Name with
  | none => some (fun n => if n = d.Name then some d else ds n)
  | some _ => if force then some ds else none

/-- GetDialect returns the dialect named `name`, `none` if it does not
exist. -/
def GetDialect (ds : Registry) (name : List Char) : Option DialectIface :=
  ds name

/-- A bound sql argument value (`interface{}` restricted to the value
kinds the claims exercise). -/
inductive Val where
  | vstr (s : List Char)
  | vint (n : Int)
deriving DecidableEq

/-- An interceptor: a function rewriting the final (sql, args) pair. -/
def Interceptor : Type := List Char × List Val → List Char × List Val

/-- Modelled from the spec: the `intercept` helper is not among the
provided source files; §6 specifies the hook as a single optional function
`(sql, args) -> (sql, args)` invoked as the last step of every build, so a
`none` hook returns the pair unchanged. -/
def intercept (f : Option Interceptor) (sql : List Char) (args : List Val) :
    List Char × List Val :=
  match f with
  | none => (sql, args)
  | some f => f (sql, args)

/-- Modelled from the spec: the argument accumulator (`ArgsBuilder`) is not
among the provided source files; §4.2 specifies an ordered sequence of
bound values together with the dialect used to format placeholders. -/
structure ArgsBuilder where
  dialect : dialect
  args : List Val

/-- Modelled from the spec: a fresh accumulator for one render pass. -/
def NewArgsBuilder (d : dialect) : ArgsBuilder := ⟨d, []⟩

/-- Modelled from the spec: `add(value)` appends the value and returns
`dialect.placeholder(currentCount)` where `currentCount` is the 1-based
position of this value among all values added so far (§4.2). -/
def ArgsBuilder.Add (ab : ArgsBuilder) (v : Val) : ArgsBuilder × List Char :=
  (⟨ab.dialect, ab.args ++ [v]⟩, ab.dialect.Placeholder (ab.args.length + 1))

/-- Modelled from the spec: `values()` returns the accumulated values in
insertion order (§4.2). -/
def ArgsBuilder.Args (ab : ArgsBuilder) : List Val := ab.args

/-- Modelled from the spec: the predicate expression tree (§4.3) —
equality against a bound value, and AND/OR combinations — is not among the
provided source files. -/
inductive Condition where
  | equal (col : List Char) (v : Val)
  | and (cs : List Condition)
  | or (cs : List Condition)

/-- Equal returns the predicate `col = value`. -/
def Equal (col : List Char) (v : Val) : Condition := .equal col v

/-- And combines predicates conjunctively. -/
def And (cs : List Condition) : Condition := .and cs

/-- Or combines predicates disjunctively. -/
def Or (cs : List Condition) : Condition := .or cs

mutual

/-- Modelled from the spec: a predicate renders itself by quoting its
column via the accumulator's dialect and pulling a placeholder for its
bound value; AND/OR render as `(child1 OP child2 OP ...)` (§4.3). -/
def Condition.BuildC : Condition → ArgsBuilder → ArgsBuilder × List Char
  | .equal col v, ab =>
    let r := ab.Add v
    (r.1, ab.dialect.Quote col ++ '=' :: r.2)
  | .and cs, ab =>
    let r := Condition.buildAll cs ab
    (r.1, '(' :: List.intercalate (str " AND ") r.2 ++ [')'])
  | .or cs, ab =>
    let r := Condition.buildAll cs ab
    (r.1, '(' :: List.intercalate (str " OR ") r.2 ++ [')'])

/-- Modelled from the spec: children of AND/OR render left to right against
the shared accumulator. -/
def Condition.buildAll : List Condition → ArgsBuilder → ArgsBuilder × List (List Char)
  | [], ab => (ab, [])
  | c :: cs, ab =>
    let r1 := Condition.BuildC c ab
    let r2 := Condition.buildAll cs r1.1
    (r2.1, r1.2 :: r2.2)

end

/-- Modelled from the spec: the assignment expression tree of Update's SET
clause (§4.3) is not among the provided source files — direct assignment
(parameterized), increment/decrement by the literal step 1 (inlined, not
parameterized), and add/subtract of a bound delta (parameterized). -/
inductive Setter where
  | assign (col : List Char) (v : Val)
  | incr (col : List Char)
  | decr (col : List Char)
  | addv (col : List Char) (v : Val)
  | subv (col : List Char) (v : Val)

/-- Assign returns the assignment `col = value` (parameterized). -/
def Assign (col : List Char) (v : Val) : Setter := .assign col v

/-- Incr returns the assignment `col = col + 1` (literal step). -/
def Incr (col : List Char) : Setter := .incr col

/-- Decr returns the assignment `col = col - 1` (literal step). -/
def Decr (col : List Char) : Setter := .decr col

/-- AddSet returns the assignment `col = col + value` (parameterized). -/
def AddSet (col : List Char) (v : Val) : Setter := .addv col v

/-- SubSet returns the assignment `col = col - value` (parameterized). -/
def SubSet (col : List Char) (v : Val) : Setter := .subv col v

/-- Modelled from the spec: rendering of one SET assignment (§4.3); the
literal-step forms inline `1` in the SQL text and bind no argument, the
parameterized forms pull one placeholder from the accumulator. -/
def Setter.BuildS : Setter → ArgsBuilder → ArgsBuilder × List Char
  | .assign col v, ab =>
    let r := ab.Add v
    (r.1, ab.dialect.Quote col ++ '=' :: r.2)
  | .incr col, ab =>
    (ab, ab.dialect.Quote col ++ '=' :: ab.dialect.Quote col ++ str "+1")
  | .decr col, ab =>
    (ab, ab.dialect.Quote col ++ '=' :: ab.dialect.Quote col ++ str "-1")
  | .addv col v, ab =>
    let r := ab.Add v
    (r.1, ab.dialect.Quote col ++ '=' :: ab.dialect.Quote col ++ '+' :: r.2)
  | .subv col v, ab =>
    let r := ab.Add v
    (r.1, ab.dialect.Quote col ++ '=' :: ab.dialect.Quote col ++ '-' :: r.2)

/-- Modelled from the spec: render the comma-joined SET assignment list
left to right against the shared accumulator (§4.4). -/
def buildSetters : List Setter → ArgsBuilder → ArgsBuilder × List (List Char)
  | [], ab => (ab, [])
  | s :: ss, ab =>
    let r1 := s.BuildS ab
    let r2 := buildSetters ss r1.1
    (r2.1, r1.2 :: r2.2)

/-- InsertBuilder is used to build the INSERT statement.  The `executor`
field (database glue, out of the composition core) is omitted. -/
structure InsertBuilder where
  intercept : Option Interceptor
  dialect : Option sqlx.dialect
  verb : List Char
  table : List Char
  columns : List (List Char)
  values : List (List Val)

/-- NewInsertBuilder returns a new INSERT builder with the default
dialect. -/
def NewInsertBuilder : InsertBuilder :=
  { intercept := none, dialect := some DefaultDialect,
    verb := [], table := [], columns := [], values := [] }

/-- Insert is short for NewInsertBuilder. -/
def Insert : InsertBuilder := NewInsertBuilder

/-- Into sets the table name with "INSERT INTO". -/
def InsertBuilder.Into (b : InsertBuilder) (table : List Char) : InsertBuilder :=
  { b with verb := str "INSERT", table := table }

/-- IgnoreInto sets the table name with "INSERT IGNORE INTO". -/
def InsertBuilder.IgnoreInto (b : InsertBuilder) (table : List Char) : InsertBuilder :=
  { b with verb := str "INSERT IGNORE", table := table }

/-- ReplaceInto sets the table name with "REPLACE INTO". -/
def InsertBuilder.ReplaceInto (b : InsertBuilder) (table : List Char) : InsertBuilder :=
  { b with verb := str "REPLACE", table := table }

/-- Columns sets the inserted columns. -/
def InsertBuilder.Columns (b : InsertBuilder) (columns : List (List Char)) : InsertBuilder :=
  { b with columns := columns }

/-- SetDialect resets the dialect. -/
def InsertBuilder.SetDialect (b : InsertBuilder) (d : sqlx.dialect) : InsertBuilder :=
  { b with dialect := some d }

/-- SetInterceptor sets the interceptor to f. -/
def InsertBuilder.SetInterceptor (b : InsertBuilder) (f : Interceptor) : InsertBuilder :=
  { b with intercept := some f }

/-- Values appends the inserting values; a row whose width differs from the
first row's width panics (`none`) at this call. -/
def InsertBuilder.Values (b : InsertBuilder) (values : List Val) : Option InsertBuilder :=
  if 0 < b.values.length ∧ (b.values.headD []).length ≠ values.length then none
  else some { b with values := b.values ++ [values] }

/-- NamedValues is the same as Values, but also sets the columns from the
argument names when the columns are not set. -/
def InsertBuilder.NamedValues (b : InsertBuilder) (values : List (List Char × Val)) :
    Option InsertBuilder :=
  if 0 < b.values.length ∧ (b.values.headD []).length ≠ values.length then none
  else
    let cs := values.map Prod.fst
    let vs := values.map Prod.snd
    some { b with
      columns := if b.columns = [] then cs else b.columns,
      values := b.values ++ [vs] }

/-- The placeholder-template group emitted by `addValues` when no rows were
supplied (its `ab == nil` branch): bare positional placeholders `1..valnum`
joined with ", " inside parentheses. -/
def addValuesTemplate (d : dialect) (valnum : Nat) : List Char :=
  '(' :: List.intercalate (str ", ")
      ((List.range valnum).map fun k => d.Placeholder (k + 1)) ++ [')']

/-- The value loop of `addValues`: each value pulls a placeholder from the
accumulator, with ", " written before every value but the first. -/
def addValsAux : ArgsBuilder → Bool → List Val → ArgsBuilder × List Char
  | ab, _, [] => (ab, [])
  | ab, first, v :: vs =>
    let r1 := ab.Add v
    let r2 := addValsAux r1.1 false vs
    (r2.1, (if first then [] else str ", ") ++ r1.2 ++ r2.2)

/-- The non-template branch of `addValues`: one parenthesized group per
row, its values rendered through the accumulator. -/
def addValuesSome (ab : ArgsBuilder) (values : List Val) : ArgsBuilder × List Char :=
  let r := addValsAux ab true values
  (r.1, '(' :: r.2 ++ [')'])

/-- The row loop of `InsertBuilder.Build`: ", " between consecutive row
groups, the accumulator threaded left to right. -/
def addRows : ArgsBuilder → Bool → List (List Val) → ArgsBuilder × List Char
  | ab, _, [] => (ab, [])
  | ab, first, row :: rs =>
    let r1 := addValuesSome ab row
    let r2 := addRows r1.1 false rs
    (r2.1, (if first then [] else str ", ") ++ r1.2 ++ r2.2)

/-- Build builds the INSERT statement.  The receiver is returned alongside
the result (the state-passing embedding of the Go method); panics are
`none`.  The Go validation chain `colnum == 0 → valnum == 0 panics;
colnum > 0 ∧ valnum == 0 → valnum = colnum; colnum > 0 ∧ valnum > 0 ∧
colnum ≠ valnum panics` is rendered by the first two guards and the
re-binding of `valnum`. -/
def InsertBuilder.Build (b : InsertBuilder) :
    InsertBuilder × Option (List Char × List Val) :=
  let vallen := b.values.length
  let valnum := if 0 < vallen then (b.values.headD []).length else 0
  let colnum := b.columns.length
  if colnum = 0 ∧ valnum = 0 then (b, none)
  else if colnum ≠ 0 ∧ valnum ≠ 0 ∧ colnum ≠ valnum then (b, none)
  else
    let valnum := if colnum ≠ 0 ∧ valnum = 0 then colnum else valnum
    if b.table = [] then (b, none)
    else
      let d := b.dialect.getD DefaultDialect
      let hdr := b.verb ++ str " INTO " ++ d.Quote b.table ++
        (if 0 < colnum then
          str " (" ++ List.intercalate (str ", ") (b.columns.map d.Quote) ++ str ")"
        else []) ++ str " VALUES "
      if vallen = 0 then
        (b, some (sqlx.intercept b.intercept (hdr ++ addValuesTemplate d valnum) []))
      else
        let r := addRows (NewArgsBuilder d) true b.values
        (b, some (sqlx.intercept b.intercept (hdr ++ r.2) r.1.Args))

/-- String is the same as Build, except args. -/
def InsertBuilder.StringI (b : InsertBuilder) : InsertBuilder × Option (List Char) :=
  let r := b.Build
  (r.1, r.2.map Prod.fst)

/-- Modelled from the spec: the UpdateBuilder source file is not among the
provided files; its shape (target table, assignment list, predicate list,
dialect, interceptor) follows §3/§4.4 and its behavior the documented
output of `ExampleUpdateBuilder` in src/update_test.go. -/
structure UpdateBuilder where
  intercept : Option Interceptor
  dialect : Option sqlx.dialect
  table : List Char
  setters : List Setter
  wheres : List Condition

/-- Modelled from the spec: a fresh UPDATE builder with the default
dialect. -/
def Update : UpdateBuilder :=
  { intercept := none, dialect := some DefaultDialect,
    table := [], setters := [], wheres := [] }

/-- Modelled from the spec: Table sets the updated table name. -/
def UpdateBuilder.Table (b : UpdateBuilder) (t : List Char) : UpdateBuilder :=
  { b with table := t }

/-- Modelled from the spec and ExampleUpdateBuilder: Set resets the SET
assignment list (the example's second `Set` call discards the first call's
assignment of column c1 — the expected output has no c1). -/
def UpdateBuilder.Set (b : UpdateBuilder) (ss : List Setter) : UpdateBuilder :=
  { b with setters := ss }

/-- Modelled from the spec and ExampleUpdateBuilder: SetMore appends to the
SET assignment list. -/
def UpdateBuilder.SetMore (b : UpdateBuilder) (ss : List Setter) : UpdateBuilder :=
  { b with setters := b.setters ++ ss }

/-- Modelled from the spec: Where appends the WHERE predicates. -/
def UpdateBuilder.Where (b : UpdateBuilder) (cs : List Condition) : UpdateBuilder :=
  { b with wheres := b.wheres ++ cs }

/-- Modelled from the spec: SetDialect resets the dialect. -/
def UpdateBuilder.SetDialect (b : UpdateBuilder) (d : sqlx.dialect) : UpdateBuilder :=
  { b with dialect := some d }

/-- Modelled from the spec: Build renders `UPDATE`, quoted table, `SET`
with the comma-joined assignments, then an optional `WHERE`, the single
accumulator shared between SET and WHERE so placeholder numbering is
continuous (§4.4); a missing table name panics; a predicate list of more
than one entry is AND-combined. -/
def UpdateBuilder.Build (b : UpdateBuilder) :
    UpdateBuilder × Option (List Char × List Val) :=
  if b.table = [] then (b, none)
  else
    let d := b.dialect.getD DefaultDialect
    let r1 := buildSetters b.setters (NewArgsBuilder d)
    let sql1 := str "UPDATE " ++ d.Quote b.table ++ str " SET " ++
      List.intercalate (str ", ") r1.2
    match b.wheres with
    | [] => (b, some (sqlx.intercept b.intercept sql1 r1.1.Args))
    | [w] =>
      let r2 := w.BuildC r1.1
      (b, some (sqlx.intercept b.intercept (sql1 ++ str " WHERE " ++ r2.2) r2.1.Args))
    | ws =>
      let r2 := (And ws).BuildC r1.1
      (b, some (sqlx.intercept b.intercept (sql1 ++ str " WHERE " ++ r2.2) r2.1.Args))

/-- A FROM table with its optional alias. -/
structure sqlTable where
  Table : List Char
  Alias : List Char

/-- A selected column with its optional alias. -/
structure selectedColumn where
  Column : List Char
  Alias : List Char

/-- An ORDER BY entry; the order is `"ASC"`, `"DESC"` or empty. -/
structure orderby where
  Column : List Char
  Order : List Char

/-- Predefined order ASC. -/
def Asc : List Char := str "ASC"

/-- Predefined order DESC. -/
def Desc : List Char := str "DESC"

/-- JoinOn is the join on statement. -/
structure JoinOn where
  Left : List Char
  Right : List Char

/-- On returns a JoinOn instance. -/
def On (left right : List Char) : JoinOn := ⟨left, right⟩

/-- One JOIN clause: kind, target table, alias, ON pairs. -/
structure joinTable where
  jtype : List Char
  jtable : List Char
  jalias : List Char
  ons : List JoinOn

/-- Rendering of one JOIN clause (`joinTable.Build`). -/
def joinTable.BuildJ (jt : joinTable) (d : dialect) : List Char :=
  (if jt.jtype = [] then [] else ' ' :: jt.jtype) ++ str " JOIN " ++
    d.Quote jt.jtable ++
    (if jt.jalias = [] then [] else str " AS " ++ d.Quote jt.jalias) ++
    (if jt.ons.isEmpty then []
     else str " ON " ++ List.intercalate (str " AND ")
       (jt.ons.map fun o => d.Quote o.Left ++ '=' :: d.Quote o.Right))

/-- SelectBuilder is used to build the SELECT statement (`executor` and the
embedded ConditionSet helper omitted as glue). -/
structure SelectBuilder where
  intercept : Option Interceptor
  dialect : Option sqlx.dialect
  distinct : Bool
  tables : List sqlTable
  columns : List selectedColumn
  joins : List joinTable
  wheres : List Condition
  groupbys : List (List Char)
  havings : List (List Char)
  orderbys : List orderby
  limit : Int
  offset : Int

/-- The alias inference of `SelectBuilder.getAlias`: an explicit non-empty
alias wins; otherwise, when the column contains a dot, the text after the
first dot and before the first following `)` is used; otherwise empty. -/
def SelectBuilder.getAlias (column : List Char) (alias? : List (List Char)) : List Char :=
  if alias? ≠ [] ∧ alias?.headD [] ≠ [] then alias?.headD []
  else
    match splitFirst '.' column with
    | none => []
    | some (_, after) =>
      match splitFirst ')' after with
      | none => after
      | some (before, _) => before

/-- NewSelectBuilderEmpty is the builder underlying `Selects`/`Select`. -/
def NewSelectBuilderEmpty : SelectBuilder :=
  { intercept := none, dialect := some DefaultDialect, distinct := false,
    tables := [], columns := [], joins := [], wheres := [],
    groupbys := [], havings := [], orderbys := [], limit := 0, offset := 0 }

/-- Select appends the selected column (empty column names are skipped). -/
def SelectBuilder.SelectC (b : SelectBuilder) (column : List Char)
    (alias? : List (List Char)) : SelectBuilder :=
  if column = [] then b
  else { b with columns := b.columns ++ [⟨column, SelectBuilder.getAlias column alias?⟩] }

/-- From appends a table name. -/
def SelectBuilder.From (b : SelectBuilder) (table : List Char)
    (alias? : List (List Char)) : SelectBuilder :=
  { b with tables := b.tables ++ [⟨table, SelectBuilder.getAlias table alias?⟩] }

/-- Where appends the WHERE conditions. -/
def SelectBuilder.WhereS (b : SelectBuilder) (cs : List Condition) : SelectBuilder :=
  { b with wheres := b.wheres ++ cs }

/-- Build builds the SELECT statement, in the state-passing embedding; the
clause order, the AND-combination of a multi-entry predicate list, the
raw AND-joined HAVING text, and the guarded LIMIT/OFFSET tail follow the
source. -/
def SelectBuilder.Build (b : SelectBuilder) :
    SelectBuilder × Option (List Char × List Val) :=
  if b.tables.isEmpty then (b, none)
  else if b.columns.isEmpty then (b, none)
  else
    let d := b.dialect.getD DefaultDialect
    let s1 := str "SELECT " ++ (if b.distinct then str "DISTINCT " else [])
    let cols := List.intercalate (str ", ") (b.columns.map fun c =>
      d.Quote c.Column ++ (if c.Alias = [] then [] else str " AS " ++ d.Quote c.Alias))
    let tbls := List.intercalate (str ", ") (b.tables.map fun t =>
      d.Quote t.Table ++ (if t.Alias = [] then [] else str " AS " ++ d.Quote t.Alias))
    let s2 := s1 ++ cols ++ str " FROM " ++ tbls ++
      (b.joins.map (joinTable.BuildJ · d)).flatten
    let s3a :=
      match b.wheres with
      | [] => (s2, ([] : List Val))
      | [w] =>
        let r := w.BuildC (NewArgsBuilder d)
        (s2 ++ str " WHERE " ++ r.2, r.1.Args)
      | ws =>
        let r := (And ws).BuildC (NewArgsBuilder d)
        (s2 ++ str " WHERE " ++ r.2, r.1.Args)
    let s3 := s3a.1
    let args := s3a.2
    let s4 := s3 ++
      (if b.groupbys = [] then []
       else str " GROUP BY " ++ List.intercalate (str ", ") (b.groupbys.map d.Quote) ++
         (if b.havings = [] then []
          else str " HAVING " ++ List.intercalate (str " AND ") b.havings))
    let s5 := s4 ++
      (if b.orderbys.isEmpty then []
       else str " ORDER BY " ++ List.intercalate (str ", ") (b.orderbys.map fun ob =>
         d.Quote ob.Column ++ (if ob.Order = [] then [] else ' ' :: ob.Order)))
    if 0 < b.limit ∨ 0 < b.offset then
      match d.LimitOffset b.limit b.offset with
      | none => (b, none)
      | some t => (b, some (sqlx.intercept b.intercept (s5 ++ ' ' :: t) args))
    else (b, some (sqlx.intercept b.intercept s5 args))

/-- String is the same as Build, except args. -/
def SelectBuilder.StringS (b : SelectBuilder) : SelectBuilder × Option (List Char) :=
  let r := b.Build
  (r.1, r.2.map Prod.fst)

/-- C6: for every built-in dialect and all int64 limit/offset,
`LimitOffset` fails exactly when the limit is negative, and otherwise
returns `LIMIT <limit>` when the offset is zero and
`LIMIT <limit> OFFSET <offset>` when it is not. -/
theorem limitOffset_spec (d : dialect) (limit offset : Int) :
    (d.LimitOffset limit offset = none ↔ limit < 0) ∧
    (0 ≤ limit →
      d.LimitOffset limit offset =
        some (if offset = 0 then str "LIMIT " ++ intStr limit
              else str "LIMIT " ++ intStr limit ++ str " OFFSET " ++ intStr offset)) := by
  unfold dialect.LimitOffset
  by_cases h : limit < 0
  · refine ⟨by simp [h], fun h2 => absurd h (by omega)⟩
  · refine ⟨?_, fun _ => ?_⟩ <;> by_cases h2 : offset = 0 <;> simp [h, h2]

/-- Witness for C6 at the spec's concrete inputs: limit 10 with offsets 0
and 20, and the failing negative limit. -/
theorem limitOffset_spec_witness :
    (dialect.LimitOffset .mysqlDialect 10 0 =
      some (if (0 : Int) = 0 then str "LIMIT " ++ intStr 10
            else str "LIMIT " ++ intStr 10 ++ str " OFFSET " ++ intStr 0)) ∧
    (dialect.LimitOffset .mysqlDialect 10 20 =
      some (if (20 : Int) = 0 then str "LIMIT " ++ intStr 10
            else str "LIMIT " ++ intStr 10 ++ str " OFFSET " ++ intStr 20)) ∧
    (dialect.LimitOffset .pqDialect (-1) 0 = none) :=
  ⟨(limitOffset_spec .mysqlDialect 10 0).2 (by decide),
   (limitOffset_spec .mysqlDialect 10 20).2 (by decide),
   (limitOffset_spec .pqDialect (-1) 0).1.mpr (by decide)⟩

/-- C7: a space-free identifier containing a dot is split on the dots,
each segment quoted independently by the segment quoter, and rejoined
with dots; concretely `t.c` quotes to backticked segments under mysql and
double-quoted segments under postgres and sqlite3. -/
theorem quote_qualified_split :
    (∀ (d : dialect) (s : List Char), ' ' ∉ s → '.' ∈ s →
        d.Quote s = List.intercalate (str ".") ((s.splitOn '.').map d.quote)) ∧
    dialect.Quote .mysqlDialect (str "t.c") = str "`t`.`c`" ∧
    dialect.Quote .pqDialect (str "t.c") = str "\"t\".\"c\"" ∧
    dialect.Quote .sqlite3Dialect (str "t.c") = str "\"t\".\"c\"" := by
  refine ⟨fun d s hsp hdot => ?_, by decide, by decide, by decide⟩
  rw [dialect.Quote, if_neg hsp, if_pos hdot]

/-- Witness for C7: the universally quantified part applied at the mysql
dialect and the identifier `a.b`. -/
theorem quote_qualified_split_witness :
    dialect.Quote .mysqlDialect (str "a.b") =
      List.intercalate (str ".")
        (((str "a.b").splitOn '.').map (dialect.quote .mysqlDialect)) :=
  quote_qualified_split.1 .mysqlDialect (str "a.b") (by decide) (by decide)

/-- C3 counterexample: under the backtick dialect the code does NOT quote
`COUNT(t.c)` to ``COUNT(`t`.`c`)``. -/
theorem quote_funccall_cex :
    dialect.Quote .mysqlDialect (str "COUNT(t.c)") ≠ str "COUNT(`t`.`c`)" := by
  decide

/-- C3 amended: `Quote` splits on dots before the function-call rule, so
`COUNT(t.c)` becomes ``COUNT(t.`c)` `` — the segment `COUNT(t` has no
closing parenthesis and passes through bare while the segment `c)` is
wrapped whole; the function-call rule quotes the inner identifier only
when it is dot-free, as in `COUNT(c)`. -/
theorem quote_funccall_amended :
    dialect.Quote .mysqlDialect (str "COUNT(t.c)") = str "COUNT(t.`c)`" ∧
    dialect.Quote .mysqlDialect (str "COUNT(c)") = str "COUNT(`c`)" := by
  constructor <;> decide

/-- C2: the Update of ExampleUpdateBuilder with mixed assignment kinds,
built under the default (mysql) dialect: Incr inlines the literal step 1
and binds nothing, Assign and AddSet each bind one argument through a
placeholder, in SET-list order. -/
theorem update_mixed_assignments :
    (UpdateBuilder.Build
      (((Update.Table (str "table")).Set
          [Assign (str "c1") (.vstr (str "v1")), Incr (str "c2")]).SetMore
          [Assign (str "c3") (.vint 123), AddSet (str "c4") (.vint 456)])).2 =
    some (str "UPDATE `table` SET `c1`=?, `c2`=`c2`+1, `c3`=?, `c4`=`c4`+?",
      [.vstr (str "v1"), .vint 123, .vint 456]) := by
  decide

/-- C10: a second `Set` call replaces the first one's assignments, so only
`Decr c2` (plus the WHERE predicate) reaches the SQL, rendered under the
postgres dialect with `$1` and args `[789]` and no trace of column c1. -/
theorem update_set_replaces :
    (UpdateBuilder.Build
      ((((Update.Table (str "table")).Set
          [Assign (str "c1") (.vstr (str "v1"))]).Set
          [Decr (str "c2")]).Where [Equal (str "c3") (.vint 789)]
        |>.SetDialect Postgres)).2 =
    some (str "UPDATE \"table\" SET \"c2\"=\"c2\"-1 WHERE \"c3\"=$1",
      [.vint 789]) := by
  decide

/-- A dialect interface value named "x" whose placeholders are all `?`. -/
def regDialectA : DialectIface :=
  { Name := str "x", Placeholder := fun _ => str "?",
    Quote := fun s => s, LimitOffset := fun _ _ => [] }

/-- A second dialect interface value, also named "x", with `$i`
placeholders — distinguishable from `regDialectA`. -/
def regDialectB : DialectIface :=
  { Name := str "x", Placeholder := fun i => '$' :: natStr i,
    Quote := fun s => s, LimitOffset := fun _ _ => [] }

/-- The registry after registering `regDialectA` into the empty one. -/
def regAfterA : Registry :=
  fun n => if n = regDialectA.Name then some regDialectA else emptyRegistry n

/-- C4 counterexample: registering `regDialectB` over the taken name "x"
with force=true succeeds but does NOT overwrite — the registry is returned
unchanged and GetDialect still yields the original `regDialectA`, which
differs from `regDialectB`. -/
theorem register_force_no_overwrite_cex :
    RegisterDialect emptyRegistry regDialectA false = some regAfterA ∧
    RegisterDialect regAfterA regDialectB true = some regAfterA ∧
    GetDialect regAfterA (str "x") = some regDialectA ∧
    regDialectA ≠ regDialectB := by
  refine ⟨rfl, rfl, rfl, fun h => ?_⟩
  have h2 : regDialectA.Placeholder 1 = regDialectB.Placeholder 1 := by rw [h]
  exact absurd h2 (by decide)

/-- C4 amended: RegisterDialect fails iff the name is taken and force is
false; with force it succeeds but leaves the registry unchanged (the
original dialect is kept, never overwritten); registering a fresh name
inserts it without touching other names; GetDialect returns the absent
indicator `none` on the empty registry. -/
theorem register_dialect_amended (ds : Registry) (d : DialectIface)
    (force : Bool) (n : List Char) :
    (RegisterDialect ds d force = none ↔
      (GetDialect ds d.Name).isSome = true ∧ force = false) ∧
    ((GetDialect ds d.Name).isSome = true → RegisterDialect ds d true = some ds) ∧
    (GetDialect ds d.Name = none →
      RegisterDialect ds d force =
        some (fun m => if m = d.Name then some d else ds m) ∧
      GetDialect (fun m => if m = d.Name then some d else ds m) d.Name = some d ∧
      (n ≠ d.Name →
        GetDialect (fun m => if m = d.Name then some d else ds m) n =
          GetDialect ds n)) ∧
    GetDialect emptyRegistry n = none := by
  unfold RegisterDialect GetDialect
  cases h : ds d.Name with
  | none =>
    refine ⟨by cases force <;> simp [h], by simp [h], fun _ => ⟨rfl, by simp, ?_⟩, rfl⟩
    intro hn
    simp [hn]
  | some d0 =>
    exact ⟨by cases force <;> simp [h], by simp [h],
      fun h2 => absurd h2 (by simp), rfl⟩

/-- Witness for C4: the amended theorem applied at concrete registries —
a fresh registration of `regDialectA` into the empty registry, and a
forced re-registration of `regDialectB` over it. -/
theorem register_dialect_amended_witness :
    (RegisterDialect emptyRegistry regDialectA false =
      some (fun m => if m = regDialectA.Name then some regDialectA
                     else emptyRegistry m)) ∧
    RegisterDialect regAfterA regDialectB true = some regAfterA := by
  refine ⟨((register_dialect_amended emptyRegistry regDialectA false
      (str "y")).2.2.1 rfl).1, ?_⟩
  exact (register_dialect_amended regAfterA regDialectB true (str "y")).2.1 rfl

/-- The builder state reached by `Insert().Into("t").Values()` — a single
value row of width zero. -/
def insertNoWidthRow : InsertBuilder :=
  { NewInsertBuilder with
    verb := str "INSERT", table := str "t"
    values := [[]] }

/-- The counterexample builder for C5: a zero-width first row together
with a two-column explicit column list. -/
def insertLoophole : InsertBuilder :=
  { insertNoWidthRow with columns := [str "c1", str "c2"] }

/-- C5 counterexample: the API reaches a builder whose explicit column
count (2) differs from its first (empty) value row's width (0), yet Build
succeeds — the `valnum == 0` branch adopts the column count and renders
`VALUES ()` instead of failing. -/
theorem insert_width_cex :
    (Insert.Into (str "t")).Values [] = some insertNoWidthRow ∧
    insertNoWidthRow.Columns [str "c1", str "c2"] = insertLoophole ∧
    insertLoophole.columns ≠ [] ∧
    insertLoophole.values ≠ [] ∧
    insertLoophole.columns.length ≠ (insertLoophole.values.headD []).length ∧
    (insertLoophole.Build).2 =
      some (str "INSERT INTO `t` (`c1`, `c2`) VALUES ()", []) := by
  refine ⟨rfl, rfl, by decide, by decide, by decide, by decide⟩

/-- C5 amended: a Values or NamedValues call whose row width differs from
the first row's width fails immediately at that call; and Build fails when
a non-empty column list and a non-empty first value row are both present
with differing widths (the width-0 first row produced by a bare `Values()`
call is the one exception: Build then adopts the column count). -/
theorem insert_width_amended (b : InsertBuilder) (vs : List Val)
    (nvs : List (List Char × Val)) :
    (b.values ≠ [] → (b.values.headD []).length ≠ vs.length →
      b.Values vs = none) ∧
    (b.values ≠ [] → (b.values.headD []).length ≠ nvs.length →
      b.NamedValues nvs = none) ∧
    (b.columns ≠ [] → b.values ≠ [] → b.values.headD [] ≠ [] →
      b.columns.length ≠ (b.values.headD []).length →
      (b.Build).2 = none) := by
  refine ⟨fun h1 h2 => ?_, fun h1 h2 => ?_, fun hc hv hr hne => ?_⟩
  · rw [InsertBuilder.Values, if_pos ⟨List.length_pos.mpr h1, h2⟩]
  · rw [InsertBuilder.NamedValues, if_pos ⟨List.length_pos.mpr h1, h2⟩]
  · have hvl : 0 < b.values.length := List.length_pos.mpr hv
    have hrl : (b.values.headD []).length ≠ 0 :=
      fun h => hr (List.eq_nil_of_length_eq_zero h)
    have hcl : b.columns.length ≠ 0 :=
      fun h => hc (List.eq_nil_of_length_eq_zero h)
    rw [InsertBuilder.Build]
    simp only [if_pos hvl]
    rw [if_neg (by omega), if_pos ⟨hcl, hrl, hne⟩]

/-- A builder holding one row of width 1 and a two-column list, used as
the concrete input of the C5 witness. -/
def insertWitnessB : InsertBuilder :=
  { NewInsertBuilder with
    verb := str "INSERT", table := str "t"
    columns := [str "a", str "b"]
    values := [[Val.vint 1]] }

/-- Witness for C5: the builder rejects a two-value row and an empty named
row at the supplying call, and fails at Build against its two-column
list. -/
theorem insert_width_amended_witness :
    insertWitnessB.Values [Val.vint 1, Val.vint 2] = none ∧
    insertWitnessB.NamedValues [] = none ∧
    (insertWitnessB.Build).2 = none := by
  refine ⟨(insert_width_amended _ [Val.vint 1, Val.vint 2] []).1 (by decide) (by decide),
    (insert_width_amended _ [] []).2.1 (by decide) (by decide),
    (insert_width_amended _ [] []).2.2 (by decide) (by decide) (by decide) (by decide)⟩

/-- C9: Build leaves every field of the receiver unchanged (the
state-passing embedding returns the receiver as the first component), so a
second Build on the returned builder yields the same (sql, args) pair, and
String is exactly the sql component of Build.  Interceptors are pure
functions in this embedding, as the claim assumes. -/
theorem build_pure (ib : InsertBuilder) (sb : SelectBuilder) (ub : UpdateBuilder) :
    (ib.Build).1 = ib ∧ (sb.Build).1 = sb ∧ (ub.Build).1 = ub ∧
    ((ib.Build).1.Build).2 = (ib.Build).2 ∧
    ((sb.Build).1.Build).2 = (sb.Build).2 ∧
    ((ub.Build).1.Build).2 = (ub.Build).2 ∧
    (ib.StringI).2 = ((ib.Build).2).map Prod.fst ∧
    (sb.StringS).2 = ((sb.Build).2).map Prod.fst := by
  have hI : ∀ b : InsertBuilder, (b.Build).1 = b := by
    intro b
    rw [InsertBuilder.Build]
    split_ifs <;> rfl
  have hS : ∀ b : SelectBuilder, (b.Build).1 = b := by
    intro b
    rw [SelectBuilder.Build]
    split_ifs <;>
      first
        | rfl
        | (dsimp only; split <;> rfl)
  have hU : ∀ b : UpdateBuilder, (b.Build).1 = b := by
    intro b
    rw [UpdateBuilder.Build]
    split_ifs <;> first | rfl | (split <;> rfl)
  refine ⟨hI ib, hS sb, hU ub, ?_, ?_, ?_, rfl, rfl⟩
  · rw [hI ib]
  · rw [hS sb]
  · rw [hU ub]

/-- The quote character of each built-in dialect. -/
def dialect.quoteChar : dialect → Char
  | .pqDialect | .sqlite3Dialect => '"'
  | .mysqlDialect => '`'

theorem isQuoted_iff {d : dialect} {s : List Char} :
    d.isQuoted s = true ↔ d.quoteChar ∈ s := by
  cases d <;> simp [dialect.isQuoted, dialect.quoteChar]

theorem quoteWrap_eq (d : dialect) (s : List Char) :
    d.quoteWrap s = d.quoteChar :: s ++ [d.quoteChar] := by
  cases d <;> rfl

theorem quoteChar_ne_dot (d : dialect) : d.quoteChar ≠ '.' := by
  cases d <;> decide

theorem quoteChar_ne_space (d : dialect) : d.quoteChar ≠ ' ' := by
  cases d <;> decide

theorem quote_of_quoteChar_mem {d : dialect} {s : List Char}
    (h : d.quoteChar ∈ s) : d.quote s = s := by
  rw [dialect.quote, if_pos (Or.inr (isQuoted_iff.mpr h))]

/-- Branch equations for the segment quoter under explicit case
hypotheses. -/
theorem quote_cases (d : dialect) (s : List Char) :
    d.quote s = s ∨ d.quoteChar ∈ d.quote s := by
  by_cases h1 : s = str "*" ∨ d.isQuoted s = true
  · exact Or.inl (by rw [dialect.quote, if_pos h1])
  match hsf : splitFirst '(' s with
  | none =>
    right
    simp only [dialect.quote, if_neg h1, hsf, quoteWrap_eq]
    simp
  | some (pre, rest) =>
    by_cases h2 : '(' ∈ rest
    · exact Or.inl (by simp only [dialect.quote, if_neg h1, hsf, if_pos h2])
    match hsr : splitFirst ')' rest with
    | none =>
      exact Or.inl (by simp only [dialect.quote, if_neg h1, hsf, if_neg h2, hsr])
    | some (mid, post) =>
      right
      simp only [dialect.quote, if_neg h1, hsf, if_neg h2, hsr, quoteWrap_eq]
      simp

/-- Every character of a quoted segment is a character of the segment or
the dialect's quote character. -/
theorem mem_quote {d : dialect} {s : List Char} {c : Char}
    (h : c ∈ d.quote s) : c ∈ s ∨ c = d.quoteChar := by
  by_cases h1 : s = str "*" ∨ d.isQuoted s = true
  · rw [dialect.quote, if_pos h1] at h; exact Or.inl h
  match hsf : splitFirst '(' s with
  | none =>
    simp only [dialect.quote, if_neg h1, hsf, quoteWrap_eq] at h
    simp only [List.cons_append, List.mem_cons, List.mem_append,
      List.mem_singleton] at h
    tauto
  | some (pre, rest) =>
    obtain ⟨hs, -⟩ := splitFirst_eq_some hsf
    by_cases h2 : '(' ∈ rest
    · simp only [dialect.quote, if_neg h1, hsf, if_pos h2] at h
      exact Or.inl h
    match hsr : splitFirst ')' rest with
    | none =>
      simp only [dialect.quote, if_neg h1, hsf, if_neg h2, hsr] at h
      exact Or.inl h
    | some (mid, post) =>
      obtain ⟨hr, -⟩ := splitFirst_eq_some hsr
      simp only [dialect.quote, if_neg h1, hsf, if_neg h2, hsr,
        quoteWrap_eq] at h
      subst hs; subst hr
      simp only [List.cons_append, List.append_assoc, List.mem_append,
        List.mem_cons, List.mem_singleton] at h ⊢
      tauto

/-- The segment quoter is idempotent. -/
theorem quote_idem (d : dialect) (s : List Char) :
    d.quote (d.quote s) = d.quote s := by
  rcases quote_cases d s with h | h
  · rw [h]; exact h
  · exact quote_of_quoteChar_mem h

theorem splitOnP_parts_subset {α : Type} {p : α → Bool} :
    ∀ {xs q : List α}, q ∈ xs.splitOnP p → ∀ {c : α}, c ∈ q → c ∈ xs := by
  intro xs
  induction xs with
  | nil =>
    intro q hq c hc
    simp only [List.splitOnP_nil, List.mem_singleton] at hq
    subst hq; simp at hc
  | cons x xs ih =>
    intro q hq c hc
    rw [List.splitOnP_cons] at hq
    by_cases hp : p x
    · rw [if_pos hp] at hq
      rcases List.mem_cons.mp hq with h | h
      · subst h; simp at hc
      · exact List.mem_cons_of_mem x (ih h hc)
    · rw [if_neg hp] at hq
      match hsp : xs.splitOnP p with
      | [] => exact absurd hsp (List.splitOnP_ne_nil p xs)
      | t :: ts =>
        rw [hsp] at hq
        simp only [List.modifyHead, List.mem_cons] at hq
        rcases hq with h | h
        · subst h
          rcases List.mem_cons.mp hc with h | h
          · exact h ▸ List.mem_cons_self x xs
          · exact List.mem_cons_of_mem x (ih (hsp ▸ List.mem_cons_self t ts) h)
        · exact List.mem_cons_of_mem x (ih (hsp ▸ List.mem_cons_of_mem t h) hc)

theorem splitOnP_parts_false {α : Type} {p : α → Bool} :
    ∀ {xs q : List α}, q ∈ xs.splitOnP p → ∀ {c : α}, c ∈ q → p c = false := by
  intro xs
  induction xs with
  | nil =>
    intro q hq c hc
    simp only [List.splitOnP_nil, List.mem_singleton] at hq
    subst hq; simp at hc
  | cons x xs ih =>
    intro q hq c hc
    rw [List.splitOnP_cons] at hq
    by_cases hp : p x
    · rw [if_pos hp] at hq
      rcases List.mem_cons.mp hq with h | h
      · subst h; simp at hc
      · exact ih h hc
    · rw [if_neg hp] at hq
      match hsp : xs.splitOnP p with
      | [] => exact absurd hsp (List.splitOnP_ne_nil p xs)
      | t :: ts =>
        rw [hsp] at hq
        simp only [List.modifyHead, List.mem_cons] at hq
        rcases hq with h | h
        · subst h
          rcases List.mem_cons.mp hc with h | h
          · subst h; exact Bool.eq_false_iff.mpr hp
          · exact ih (hsp ▸ List.mem_cons_self t ts) h
        · exact ih (hsp ▸ List.mem_cons_of_mem t h) hc

theorem splitOnP_length_two {α : Type} {p : α → Bool} :
    ∀ {xs : List α} {x : α}, x ∈ xs → p x = true →
      2 ≤ (xs.splitOnP p).length := by
  intro xs
  induction xs with
  | nil => intro x hx; simp at hx
  | cons y ys ih =>
    intro x hx hpx
    rw [List.splitOnP_cons]
    by_cases hp : p y
    · rw [if_pos hp]
      have := List.length_pos.mpr (List.splitOnP_ne_nil p ys)
      simp only [List.length_cons]
      omega
    · rw [if_neg hp]
      rw [List.length_modifyHead]
      rcases List.mem_cons.mp hx with h | h
      · subst h; exact absurd hpx (by simp [hp])
      · exact ih h hpx

theorem mem_of_mem_splitOn {s q : List Char} {sep c : Char}
    (hq : q ∈ s.splitOn sep) (hc : c ∈ q) : c ∈ s :=
  splitOnP_parts_subset hq hc

theorem not_mem_of_mem_splitOn {s q : List Char} {sep : Char}
    (hq : q ∈ s.splitOn sep) : sep ∉ q := by
  intro hmem
  have := splitOnP_parts_false hq hmem
  simp at this

theorem two_le_length_splitOn {s : List Char} {sep : Char} (h : sep ∈ s) :
    2 ≤ (s.splitOn sep).length :=
  splitOnP_length_two h (by simp)

theorem mem_of_mem_intersperse {α : Type} {sep l : α} :
    ∀ {ls : List α}, l ∈ ls.intersperse sep → l = sep ∨ l ∈ ls := by
  intro ls
  induction ls with
  | nil => intro h; simp at h
  | cons a t ih =>
    intro h
    match t with
    | [] =>
      simp only [List.intersperse_singleton, List.mem_singleton] at h
      exact Or.inr (by simp [h])
    | b :: t' =>
      rw [List.intersperse_cons_cons] at h
      rcases List.mem_cons.mp h with h | h
      · exact Or.inr (by simp [h])
      rcases List.mem_cons.mp h with h | h
      · exact Or.inl h
      · rcases ih h with h | h
        · exact Or.inl h
        · exact Or.inr (List.mem_cons_of_mem a h)

theorem mem_of_mem_intercalate {α : Type} {sep : List α} {c : α}
    {ls : List (List α)} (h : c ∈ List.intercalate sep ls) :
    (∃ l ∈ ls, c ∈ l) ∨ c ∈ sep := by
  rw [List.intercalate] at h
  obtain ⟨l, hl, hc⟩ := List.mem_flatten.mp h
  rcases mem_of_mem_intersperse hl with h | h
  · exact Or.inr (h ▸ hc)
  · exact Or.inl ⟨l, h, hc⟩

theorem sep_mem_intercalate {α : Type} {sep : List α} {c : α}
    {ls : List (List α)} (h2 : 2 ≤ ls.length) (hc : c ∈ sep) :
    c ∈ List.intercalate sep ls := by
  match ls with
  | [] => simp at h2
  | [a] => simp at h2
  | a :: b :: t =>
    rw [List.intercalate, List.intersperse_cons_cons]
    simp only [List.flatten, List.mem_append]
    exact Or.inr (Or.inl hc)

/-- No character of a fully quoted identifier is new except the dialect's
quote character. -/
theorem mem_Quote {d : dialect} {s : List Char} {c : Char}
    (h : c ∈ d.Quote s) : c ∈ s ∨ c = d.quoteChar := by
  rw [dialect.Quote] at h
  by_cases hsp : ' ' ∈ s
  · rw [if_pos hsp] at h; exact Or.inl h
  rw [if_neg hsp] at h
  by_cases hdot : '.' ∈ s
  · rw [if_pos hdot] at h
    rcases mem_of_mem_intercalate h with ⟨l, hl, hc⟩ | h
    · obtain ⟨p, hp, hpq⟩ := List.mem_map.mp hl
      rcases mem_quote (hpq ▸ hc) with h | h
      · exact Or.inl (mem_of_mem_splitOn hp h)
      · exact Or.inr h
    · left
      have : c = '.' := by simpa [str] using h
      exact this ▸ hdot
  · rw [if_neg hdot] at h
    exact mem_quote h

/-- Quote is idempotent (on any input). -/
theorem Quote_idem (d : dialect) (s : List Char) :
    d.Quote (d.Quote s) = d.Quote s := by
  by_cases hsp : ' ' ∈ s
  · have h : d.Quote s = s := by rw [dialect.Quote, if_pos hsp]
    rw [h]; exact h
  have hsp2 : ∀ t : List Char, (∀ c ∈ t, c ∈ s ∨ c = d.quoteChar) → ' ' ∉ t := by
    intro t ht hmem
    rcases ht ' ' hmem with h | h
    · exact hsp h
    · exact quoteChar_ne_space d h.symm
  by_cases hdot : '.' ∈ s
  · have hQ : d.Quote s =
        List.intercalate (str ".") ((s.splitOn '.').map d.quote) := by
      rw [dialect.Quote, if_neg hsp, if_pos hdot]
    have hparts_ne : (s.splitOn '.').map d.quote ≠ [] := by
      simp only [ne_eq, List.map_eq_nil_iff]
      exact List.splitOnP_ne_nil _ s
    have hnodot : ∀ l ∈ (s.splitOn '.').map d.quote, '.' ∉ l := by
      intro l hl hmem
      obtain ⟨p, hp, hpq⟩ := List.mem_map.mp hl
      rcases mem_quote (hpq ▸ hmem) with h | h
      · exact not_mem_of_mem_splitOn hp h
      · exact quoteChar_ne_dot d h.symm
    have hJspace : ' ' ∉ d.Quote s :=
      hsp2 _ (fun c hc => mem_Quote hc)
    have hJdot : '.' ∈ d.Quote s := by
      rw [hQ]
      refine sep_mem_intercalate ?_ (by simp [str])
      rw [List.length_map]
      exact two_le_length_splitOn hdot
    rw [dialect.Quote, if_neg hJspace, if_pos hJdot]
    conv_lhs =>
      rw [hQ, show str "." = ['.'] from rfl,
        List.splitOn_intercalate ((s.splitOn '.').map d.quote) '.'
          (by simpa using hnodot) hparts_ne]
    rw [List.map_map, hQ]
    congr 1
    exact List.map_congr_left (fun p _ => quote_idem d p)
  · have hQ : d.Quote s = d.quote s := by
      rw [dialect.Quote, if_neg hsp, if_neg hdot]
    have hqspace : ' ' ∉ d.quote s := hsp2 _ (fun c hc => mem_quote hc)
    have hqdot : '.' ∉ d.quote s := by
      intro hmem
      rcases mem_quote hmem with h | h
      · exact hdot h
      · exact quoteChar_ne_dot d h.symm
    rw [hQ, dialect.Quote, if_neg hqspace, if_neg hqdot]
    exact quote_idem d s

/-- C8 counterexample: for the backtick dialect and x = ".a.", the string
qc + x + qc is NOT returned unchanged — the dot-split requotes the middle
segment, yielding ``​`.`a`.`​`` . -/
theorem quote_already_quoted_cex :
    dialect.Quote .mysqlDialect ('`' :: str ".a." ++ ['`']) ≠
      '`' :: str ".a." ++ ['`'] := by
  decide

/-- C8 amended: an identifier of the form qc + x + qc passes through
unchanged for every x free of dots (a dotted x is re-split and segments
without the quote character are re-quoted); and Quote is idempotent on
every space-free identifier. -/
theorem quote_idempotent_amended (d : dialect) (x s : List Char) :
    ('.' ∉ x →
      d.Quote (d.quoteChar :: x ++ [d.quoteChar]) =
        d.quoteChar :: x ++ [d.quoteChar]) ∧
    (' ' ∉ s → d.Quote (d.Quote s) = d.Quote s) := by
  refine ⟨fun hx => ?_, fun _ => Quote_idem d s⟩
  by_cases hsp : ' ' ∈ d.quoteChar :: x ++ [d.quoteChar]
  · rw [dialect.Quote, if_pos hsp]
  have hdot : '.' ∉ d.quoteChar :: x ++ [d.quoteChar] := by
    intro hmem
    rcases List.mem_cons.mp hmem with h | h
    · exact quoteChar_ne_dot d h.symm
    rcases List.mem_append.mp h with h | h
    · exact hx h
    · exact quoteChar_ne_dot d (List.mem_singleton.mp h).symm
  rw [dialect.Quote, if_neg hsp, if_neg hdot]
  exact quote_of_quoteChar_mem (by simp)

/-- Witness for C8: the amended theorem applied at the backtick dialect,
x = "ab" and s = "t.c". -/
theorem quote_idempotent_amended_witness :
    (dialect.Quote .mysqlDialect
        (dialect.quoteChar .mysqlDialect :: str "ab" ++
          [dialect.quoteChar .mysqlDialect]) =
      dialect.quoteChar .mysqlDialect :: str "ab" ++
        [dialect.quoteChar .mysqlDialect]) ∧
    dialect.Quote .mysqlDialect (dialect.Quote .mysqlDialect (str "t.c")) =
      dialect.Quote .mysqlDialect (str "t.c") :=
  ⟨(quote_idempotent_amended .mysqlDialect (str "ab") (str "t.c")).1 (by decide),
   (quote_idempotent_amended .mysqlDialect (str "ab") (str "t.c")).2 (by decide)⟩

/-- The placeholder texts numbered `base+1 .. base+n`, in order. -/
def phList (d : dialect) (base n : Nat) : List (List Char) :=
  (List.range n).map fun k => d.Placeholder (base + k + 1)

/-- One rendered VALUES group whose placeholders are numbered
`base+1 .. base+n`, left to right. -/
def phRowSpec (d : dialect) (base n : Nat) : List Char :=
  '(' :: List.intercalate (str ", ") (phList d base n) ++ [')']

/-- The whole rendered VALUES section for `m` rows of width `w`: group `j`
carries the consecutive placeholder numbers `j*w+1 .. j*w+w`, so reading
the groups left to right yields the placeholders `1 .. m*w` in order. -/
def phRowsSpec (d : dialect) (w m : Nat) : List Char :=
  List.intercalate (str ", ")
    ((List.range m).map fun j => phRowSpec d (j * w) w)

/-- The text of the INSERT statement before its VALUES groups. -/
def insertHeader (b : InsertBuilder) (d : dialect) : List Char :=
  b.verb ++ str " INTO " ++ d.Quote b.table ++
    (if 0 < b.columns.length then
      str " (" ++ List.intercalate (str ", ") (b.columns.map d.Quote) ++ str ")"
    else []) ++ str " VALUES "

theorem intercalate_cons_eq_flatten {α : Type} (sep x : List α) :
    ∀ xs : List (List α),
      List.intercalate sep (x :: xs) = x ++ (xs.map (sep ++ ·)).flatten := by
  intro xs
  induction xs generalizing x with
  | nil => simp [List.intercalate]
  | cons y ys ih =>
    rw [List.intercalate, List.intersperse_cons_cons, List.flatten_cons,
      List.flatten_cons]
    rw [show (List.intersperse sep (y :: ys)).flatten =
          List.intercalate sep (y :: ys) from rfl, ih y]
    simp [List.append_assoc]

theorem addValsAux_false (vs : List Val) : ∀ ab : ArgsBuilder,
    addValsAux ab false vs =
      (⟨ab.dialect, ab.args ++ vs⟩,
       ((List.range vs.length).map fun k =>
          str ", " ++ ab.dialect.Placeholder (ab.args.length + k + 1)).flatten) := by
  induction vs with
  | nil => intro ab; simp [addValsAux]
  | cons v vs ih =>
    intro ab
    simp only [addValsAux, ArgsBuilder.Add, ih]
    refine Prod.ext ?_ ?_
    · simp
    · dsimp only
      rw [List.length_append, List.length_singleton]
      conv_rhs => rw [List.length_cons, List.range_succ_eq_map]
      simp only [List.map_cons, List.flatten_cons, List.map_map]
      have harith : ∀ k : Nat,
          ab.args.length + 1 + k + 1 = ab.args.length + (k + 1) + 1 := by omega
      simp [Function.comp_def, harith]

theorem addValsAux_true (ab : ArgsBuilder) (v : Val) (vs : List Val) :
    addValsAux ab true (v :: vs) =
      (⟨ab.dialect, ab.args ++ v :: vs⟩,
       ab.dialect.Placeholder (ab.args.length + 1) ++
         ((List.range vs.length).map fun k =>
            str ", " ++ ab.dialect.Placeholder (ab.args.length + 1 + k + 1)).flatten) := by
  simp only [addValsAux, ArgsBuilder.Add, addValsAux_false]
  refine Prod.ext (by simp) ?_
  dsimp only
  rw [List.length_append, List.length_singleton]
  simp

theorem addValuesSome_spec (ab : ArgsBuilder) (r : List Val) :
    addValuesSome ab r =
      (⟨ab.dialect, ab.args ++ r⟩,
       phRowSpec ab.dialect ab.args.length r.length) := by
  cases r with
  | nil => simp [addValuesSome, addValsAux, phRowSpec, phList, List.intercalate]
  | cons v vs =>
    simp only [addValuesSome, addValsAux_true]
    refine Prod.ext (by simp) ?_
    dsimp only
    rw [phRowSpec, List.length_cons, phList, List.range_succ_eq_map]
    rw [List.map_cons, intercalate_cons_eq_flatten, List.map_map, List.map_map]
    have harith : ∀ k : Nat,
        ab.args.length + (k + 1) + 1 = ab.args.length + 1 + k + 1 := by omega
    simp [Function.comp_def, harith]

theorem addRows_false (w : Nat) : ∀ (rows : List (List Val)) (ab : ArgsBuilder),
    (∀ r ∈ rows, r.length = w) →
    addRows ab false rows =
      (⟨ab.dialect, ab.args ++ rows.flatten⟩,
       ((List.range rows.length).map fun j =>
          str ", " ++ phRowSpec ab.dialect (ab.args.length + j * w) w).flatten) := by
  intro rows
  induction rows with
  | nil => intro ab _; simp [addRows]
  | cons row rows ih =>
    intro ab hw
    have hrow : row.length = w := hw row (List.mem_cons_self row rows)
    simp only [addRows, addValuesSome_spec, hrow,
      ih _ (fun r hr => hw r (List.mem_cons_of_mem row hr))]
    refine Prod.ext (by simp) ?_
    dsimp only
    rw [List.length_append, hrow]
    conv_rhs => rw [List.length_cons, List.range_succ_eq_map]
    simp only [List.map_cons, List.flatten_cons, List.map_map]
    have harith : ∀ j : Nat,
        ab.args.length + w + j * w = ab.args.length + (j + 1) * w := by
      intro j; ring
    simp [Function.comp_def, harith]

theorem addRows_true (w : Nat) (rows : List (List Val)) (ab : ArgsBuilder)
    (hw : ∀ r ∈ rows, r.length = w) (hne : rows ≠ []) :
    addRows ab true rows =
      (⟨ab.dialect, ab.args ++ rows.flatten⟩,
       List.intercalate (str ", ")
         ((List.range rows.length).map fun j =>
            phRowSpec ab.dialect (ab.args.length + j * w) w)) := by
  match rows with
  | [] => exact absurd rfl hne
  | row :: rows =>
    have hrow : row.length = w := hw row (List.mem_cons_self row rows)
    simp only [addRows, addValuesSome_spec, hrow,
      addRows_false w rows _ (fun r hr => hw r (List.mem_cons_of_mem row hr))]
    refine Prod.ext (by simp) ?_
    dsimp only
    rw [List.length_append, hrow]
    conv_rhs => rw [List.length_cons, List.range_succ_eq_map]
    rw [List.map_cons, intercalate_cons_eq_flatten, List.map_map, List.map_map]
    have harith : ∀ j : Nat,
        ab.args.length + w + j * w = ab.args.length + (j + 1) * w := by
      intro j; ring
    simp [Function.comp_def, harith]

/-- C1: for every dialect and every InsertBuilder holding m ≥ 1 rows of
uniform width w ≥ 1 (with a consistent or absent column list, a table
name, and no interceptor), Build renders the header followed by
`phRowsSpec`, in which the ith emitted placeholder — counting left to
right in the SQL text — is literally `dialect.Placeholder i` (group j
carries numbers j*w+1 .. j*w+w), and returns exactly the row-major
flattening of the value rows as args; so the ith placeholder binds the
ith element of args, for every i from 1 to N = m*w. -/
theorem insert_build_alignment (d : dialect) (b : InsertBuilder) (w : Nat)
    (hd : b.dialect = some d) (hInt : b.intercept = none)
    (htab : b.table ≠ []) (hrows : b.values ≠ [])
    (hw : ∀ r ∈ b.values, r.length = w) (hw0 : 0 < w)
    (hcols : b.columns = [] ∨ b.columns.length = w) :
    (b.Build).2 =
      some (insertHeader b d ++ phRowsSpec d w b.values.length,
            b.values.flatten) := by
  have hvallen : 0 < b.values.length := List.length_pos.mpr hrows
  have hhead : (b.values.headD []).length = w := by
    match hv : b.values with
    | [] => exact absurd hv hrows
    | r :: rs => exact hw r (hv ▸ List.mem_cons_self r rs)
  rw [InsertBuilder.Build]
  simp only [if_pos hvallen]
  rw [if_neg ?gneg1, if_neg ?gneg2]
  case gneg1 =>
    rintro ⟨-, h2⟩
    rw [hhead] at h2
    omega
  case gneg2 =>
    rintro ⟨h1, -, h3⟩
    rcases hcols with hc | hc
    · exact h1 (by simp [hc])
    · exact h3 (by rw [hc, hhead])
  rw [if_neg (by simpa using htab)]
  rw [if_neg (by omega)]
  rw [hd]
  simp only [Option.getD_some]
  rw [addRows_true w b.values (NewArgsBuilder d) hw hrows, hInt]
  simp only [sqlx.intercept, ArgsBuilder.Args, NewArgsBuilder,
    insertHeader, phRowsSpec]
  simp

/-- A two-row, two-column builder used as the concrete input of the C1
witness. -/
def alignWitnessB : InsertBuilder :=
  { NewInsertBuilder with
    verb := str "INSERT", table := str "t"
    values := [[Val.vstr (str "a"), Val.vint 1], [Val.vint 2, Val.vint 3]] }

/-- Witness for C1: the alignment theorem applied at the mysql dialect and
a concrete two-row builder. -/
theorem insert_build_alignment_witness :
    (alignWitnessB.Build).2 =
      some (insertHeader alignWitnessB .mysqlDialect ++
              phRowsSpec .mysqlDialect 2 alignWitnessB.values.length,
            alignWitnessB.values.flatten) :=
  insert_build_alignment .mysqlDialect alignWitnessB 2 rfl rfl
    (by decide) (by decide) (by decide) (by decide) (Or.inl rfl)

end sqlx
